import Mathlib

/-!
Shallow embedding of the sk-company-lookup repository (TypeScript + PostgreSQL):
the import pipeline (`src/services/ImportService.ts`), the search service
(`SearchService`) and the HTTP company-lookup route, together with proofs about
the claims on normalization, entity resolution, ranking and import error
handling.

Modelling conventions:
* JS strings are Lean `String` (a list of Unicode scalars; all characters the
  code manipulates are in the BMP, where JS UTF-16 code units coincide with
  scalars).
* `String.prototype.normalize('NFD')` is modelled by an explicit decomposition
  table faithful to the Unicode data for every diacritic character the
  repository's code mentions (the 44 characters of the SQL TRANSLATE call);
  characters outside the table decompose to themselves.
* `toLowerCase` / SQL `LOWER` are modelled by an explicit case table covering
  ASCII and those same diacritic letters; other characters are unchanged.
* SQL text ordering (`ORDER BY`) and JS string comparison are modelled by the
  lexicographic order on `List Char`.
* `pg_trgm`'s `similarity` is a real-valued black box to the code; it is
  modelled as an arbitrary `String → String → Nat` parameter (only comparisons
  against it matter), with the `%` operator meaning `threshold ≤ similarity`.
-/

/-- True for the Unicode combining marks U+0300–U+036F, the range stripped by
`removeDiacritics` (`.replace(/[̀-ͯ]/g, '')`). -/
def combiningMark (c : Char) : Bool := 0x300 ≤ c.val && c.val ≤ 0x36F

/-- NFD decomposition data (char, base letter, combining mark) for the Slovak,
Czech and German diacritic letters handled by the repository. -/
def decompTable : List (Char × Char × Char) :=
  [('á', 'a', '́'), ('ä', 'a', '̈'), ('č', 'c', '̌'),
   ('ď', 'd', '̌'), ('é', 'e', '́'), ('ě', 'e', '̌'),
   ('í', 'i', '́'), ('ľ', 'l', '̌'), ('ĺ', 'l', '́'),
   ('ň', 'n', '̌'), ('ó', 'o', '́'), ('ô', 'o', '̂'),
   ('ö', 'o', '̈'), ('ŕ', 'r', '́'), ('ř', 'r', '̌'),
   ('š', 's', '̌'), ('ť', 't', '̌'), ('ú', 'u', '́'),
   ('ů', 'u', '̊'), ('ü', 'u', '̈'), ('ý', 'y', '́'),
   ('ž', 'z', '̌'),
   ('Á', 'A', '́'), ('Ä', 'A', '̈'), ('Č', 'C', '̌'),
   ('Ď', 'D', '̌'), ('É', 'E', '́'), ('Ě', 'E', '̌'),
   ('Í', 'I', '́'), ('Ľ', 'L', '̌'), ('Ĺ', 'L', '́'),
   ('Ň', 'N', '̌'), ('Ó', 'O', '́'), ('Ô', 'O', '̂'),
   ('Ö', 'O', '̈'), ('Ŕ', 'R', '́'), ('Ř', 'R', '̌'),
   ('Š', 'S', '̌'), ('Ť', 'T', '̌'), ('Ú', 'U', '́'),
   ('Ů', 'U', '̊'), ('Ü', 'U', '̈'), ('Ý', 'Y', '́'),
   ('Ž', 'Z', '̌')]

/-- Upper → lower case table: ASCII A–Z plus the diacritic letters above. -/
def lowerTable : List (Char × Char) :=
  [('A', 'a'), ('B', 'b'), ('C', 'c'), ('D', 'd'), ('E', 'e'), ('F', 'f'),
   ('G', 'g'), ('H', 'h'), ('I', 'i'), ('J', 'j'), ('K', 'k'), ('L', 'l'),
   ('M', 'm'), ('N', 'n'), ('O', 'o'), ('P', 'p'), ('Q', 'q'), ('R', 'r'),
   ('S', 's'), ('T', 't'), ('U', 'u'), ('V', 'v'), ('W', 'w'), ('X', 'x'),
   ('Y', 'y'), ('Z', 'z'),
   ('Á', 'á'), ('Ä', 'ä'), ('Č', 'č'), ('Ď', 'ď'), ('É', 'é'), ('Ě', 'ě'),
   ('Í', 'í'), ('Ľ', 'ľ'), ('Ĺ', 'ĺ'), ('Ň', 'ň'), ('Ó', 'ó'), ('Ô', 'ô'),
   ('Ö', 'ö'), ('Ŕ', 'ŕ'), ('Ř', 'ř'), ('Š', 'š'), ('Ť', 'ť'), ('Ú', 'ú'),
   ('Ů', 'ů'), ('Ü', 'ü'), ('Ý', 'ý'), ('Ž', 'ž')]

/-- One character of `toLowerCase` (and of SQL `LOWER`). -/
def jsLower (c : Char) : Char :=
  match lowerTable.find? (fun p => p.1 == c) with
  | some p => p.2
  | none => c

/-- One character of `normalize('NFD')`. -/
def nfdChar (c : Char) : List Char :=
  match decompTable.find? (fun p => p.1 == c) with
  | some p => [p.2.1, p.2.2]
  | none => [c]

/-- The character pipeline of `removeDiacritics`: NFD decomposition, then the
combining-mark strip, then lower-casing. -/
def normChars (l : List Char) : List Char :=
  ((l.flatMap nfdChar).filter (fun c => !combiningMark c)).map jsLower

/-- `removeDiacritics` from `ImportService.ts` lines 23–28 and
`SearchService.ts` lines 30–35 (both files contain the identical function):
`str.normalize('NFD').replace(/[̀-ͯ]/g, '').toLowerCase()`. -/
def removeDiacritics (s : String) : String := String.mk (normChars s.data)

/-- `String.prototype.trim()`. -/
def jsTrim (s : String) : String :=
  String.mk (((s.data.dropWhile Char.isWhitespace).reverse.dropWhile
    Char.isWhitespace).reverse)

/-- The 44-character source list of the SQL
`TRANSLATE(n.name, 'áäčďéěíľĺňóôöŕřšťúůüýžÁÄČĎÉĚÍĽĹŇÓÔÖŔŘŠŤÚŮÜÝŽ', …)`
in `ImportService.parseAndImport` (line 327), copied verbatim. -/
def translateSrc : List Char :=
  "áäčďéěíľĺňóôöŕřšťúůüýžÁÄČĎÉĚÍĽĹŇÓÔÖŔŘŠŤÚŮÜÝŽ".data

/-- The 43-character target list `'aacdeeilnooorrstuuuyzAACDEEILLNOOORRSTUUUYZ'`
of the same TRANSLATE call, copied verbatim (note: it is one character shorter
than the source list). -/
def translateTgt : List Char :=
  "aacdeeilnooorrstuuuyzAACDEEILLNOOORRSTUUUYZ".data

/-- One character of SQL `TRANSLATE(s, from, to)`: a character at position `i`
of `from` is replaced by position `i` of `to`, or deleted if `to` is too
short; other characters pass through. -/
def translateChar (c : Char) : Option Char :=
  match translateSrc.findIdx? (fun d => d == c) with
  | some i => translateTgt.get? i
  | none => some c

/-- The import-time name normalization
`LOWER(TRANSLATE(n.name, '…', '…'))` of `parseAndImport` (line 327), which
produces the published `name_normalized` column. -/
def sqlNormalize (s : String) : String :=
  String.mk ((s.data.filterMap translateChar).map jsLower)

/-- A character is inert for the `removeDiacritics` pipeline: it does not
decompose, is not a combining mark, and is already lower case. -/
def inertChar (c : Char) : Bool :=
  (decompTable.find? (fun p => p.1 == c)).isNone && !combiningMark c &&
    (lowerTable.find? (fun p => p.1 == c)).isNone

theorem decompTable_sound :
    decompTable.all (fun p =>
      !combiningMark p.2.1 && combiningMark p.2.2 && inertChar (jsLower p.2.1))
      = true := by decide

theorem lowerTable_sound :
    lowerTable.all (fun p =>
      !(decompTable.find? (fun q => q.1 == p.1)).isNone || inertChar p.2)
      = true := by decide

theorem inert_jsLower (c : Char)
    (hd : (decompTable.find? (fun p => p.1 == c)) = none)
    (hc : combiningMark c = false) : inertChar (jsLower c) = true := by
  unfold jsLower
  cases hl : lowerTable.find? (fun p => p.1 == c) with
  | none =>
    simp only [inertChar, hd, hl, hc]
    rfl
  | some p =>
    have hp : p ∈ lowerTable := List.mem_of_find?_eq_some hl
    have hkey := List.find?_some hl
    have hkey' : p.1 = c := by simpa using hkey
    have := List.all_eq_true.mp lowerTable_sound p hp
    rw [Bool.or_eq_true, Bool.not_eq_true', Option.isNone_eq_false_iff,
      Option.isSome_iff_ne_none] at this
    cases this with
    | inl h => exact absurd (hkey' ▸ hd) h
    | inr h => exact h

theorem normChars_single_inert (c : Char) :
    (normChars [c]).all inertChar = true := by
  unfold normChars
  cases hd : decompTable.find? (fun p => p.1 == c) with
  | none =>
    cases hc : combiningMark c with
    | false => simp [nfdChar, hd, hc, inert_jsLower c hd hc]
    | true => simp [nfdChar, hd, hc]
  | some p =>
    have hp : p ∈ decompTable := List.mem_of_find?_eq_some hd
    have hsound := List.all_eq_true.mp decompTable_sound p hp
    simp only [Bool.and_eq_true] at hsound
    obtain ⟨⟨h1, h2⟩, h3⟩ := hsound
    rw [Bool.not_eq_true'] at h1
    simp [nfdChar, hd, h1, h2, h3]

theorem normChars_inert_id (c : Char) (h : inertChar c = true) :
    normChars [c] = [c] := by
  unfold inertChar at h
  simp only [Bool.and_eq_true, Option.isNone_iff_eq_none, Bool.not_eq_true'] at h
  obtain ⟨⟨hd, hc⟩, hl⟩ := h
  unfold normChars nfdChar jsLower
  simp [hd, hc, hl]

theorem normChars_append (l m : List Char) :
    normChars (l ++ m) = normChars l ++ normChars m := by
  unfold normChars
  simp [List.flatMap_append, List.filter_append]

theorem normChars_cons (c : Char) (l : List Char) :
    normChars (c :: l) = normChars [c] ++ normChars l := by
  have : c :: l = [c] ++ l := rfl
  rw [this, normChars_append]

theorem normChars_all_inert (l : List Char) :
    (normChars l).all inertChar = true := by
  induction l with
  | nil => rfl
  | cons c l ih =>
    rw [normChars_cons, List.all_append, ih, normChars_single_inert]
    rfl

theorem normChars_fixed (l : List Char) (h : l.all inertChar = true) :
    normChars l = l := by
  induction l with
  | nil => rfl
  | cons c l ih =>
    rw [List.all_cons, Bool.and_eq_true] at h
    rw [normChars_cons, normChars_inert_id c h.1, ih h.2]
    rfl

theorem normChars_idem (l : List Char) : normChars (normChars l) = normChars l :=
  normChars_fixed _ (normChars_all_inert l)

theorem removeDiacritics_idem (s : String) :
    removeDiacritics (removeDiacritics s) = removeDiacritics s := by
  unfold removeDiacritics
  exact congrArg String.mk (normChars_idem s.data)

/-! ## Data model of the import staging relations and the published table

These mirror the temporary tables `import_organizations`, `import_identifiers`,
`import_names`, `import_addresses`, `import_legal_form_entries`,
`import_legal_forms` and the published `companies` table created by
`ImportService.parseAndImport`.  Dates only ever matter through `IS NULL`
tests, so they are kept as `Option String`. -/

structure Organization where
  id : Int
  terminatedOn : Option String
deriving DecidableEq

structure IdentifierEntry where
  organizationId : Int
  ico : Option String
  effectiveTo : Option String
deriving DecidableEq

structure NameEntry where
  organizationId : Int
  name : Option String
  effectiveTo : Option String
deriving DecidableEq

structure AddressEntry where
  organizationId : Int
  street : Option String
  city : Option String
  postalCode : Option String
  effectiveTo : Option String
deriving DecidableEq

structure LegalFormEntry where
  organizationId : Int
  legalFormId : Int
  effectiveTo : Option String
deriving DecidableEq

structure LegalForm where
  id : Int
  name : String
deriving DecidableEq

/-- One row of `companies_staging` / `companies` (the columns the code ever
reads; `dic` and `ic_dph` are constant NULL and omitted). -/
structure Company where
  ico : String
  name : String
  nameNormalized : String
  legalForm : Option String
  street : Option String
  city : Option String
  postalCode : Option String
  country : String
  isActive : Bool
deriving DecidableEq

/-- `WHERE i.effective_to IS NULL AND i.ico IS NOT NULL` of the resolution
query. -/
def openIds (ids : List IdentifierEntry) : List IdentifierEntry :=
  ids.filter (fun i => i.effectiveTo.isNone && i.ico.isSome)

/-- `JOIN import_names n ON n.organization_id = … AND n.effective_to IS NULL`
together with `WHERE n.name IS NOT NULL`. -/
def qualNames (names : List NameEntry) (oid : Int) : List NameEntry :=
  names.filter (fun n =>
    n.organizationId == oid && n.effectiveTo.isNone && n.name.isSome)

/-- `LEFT JOIN import_addresses a ON a.organization_id = … AND a.effective_to
IS NULL`: at least one joined row, `none` standing for the all-NULL row. -/
def addrRows (addrs : List AddressEntry) (oid : Int) :
    List (Option AddressEntry) :=
  if (addrs.filter
      (fun a => a.organizationId == oid && a.effectiveTo.isNone)).isEmpty
  then [none]
  else (addrs.filter
      (fun a => a.organizationId == oid && a.effectiveTo.isNone)).map some

/-- `LEFT JOIN import_legal_form_entries lfe … LEFT JOIN import_legal_forms lf
ON lf.id = lfe.legal_form_id`, already projected to `lf.name`. -/
def lfRows (lfes : List LegalFormEntry) (lfs : List LegalForm) (oid : Int) :
    List (Option String) :=
  if (lfes.filter
      (fun e => e.organizationId == oid && e.effectiveTo.isNone)).isEmpty
  then [none]
  else (lfes.filter
      (fun e => e.organizationId == oid && e.effectiveTo.isNone)).map
    (fun e => (lfs.find? (fun f => f.id == e.legalFormId)).map LegalForm.name)

/-- One SELECT output row of the resolution query: the selected columns,
including `LOWER(TRANSLATE(n.name, …))` for `name_normalized`,
`'Slovensko'` for country and `(o.terminated_on IS NULL)` for `is_active`
(true as well when the organization row is absent, since `NULL IS NULL`). -/
def mkCompany (orgs : List Organization) (i : IdentifierEntry) (n : NameEntry)
    (a : Option AddressEntry) (lf : Option String) : Company :=
  { ico := i.ico.getD ""
    name := n.name.getD ""
    nameNormalized := sqlNormalize (n.name.getD "")
    legalForm := lf
    street := a.bind AddressEntry.street
    city := a.bind AddressEntry.city
    postalCode := a.bind AddressEntry.postalCode
    country := "Slovensko"
    isActive := ((orgs.find? (fun o => o.id == i.organizationId)).bind
      Organization.terminatedOn).isNone }

/-- All joined rows of the resolution query before `DISTINCT ON`. -/
def candidates (ids : List IdentifierEntry) (names : List NameEntry)
    (orgs : List Organization) (addrs : List AddressEntry)
    (lfes : List LegalFormEntry) (lfs : List LegalForm) : List Company :=
  (openIds ids).flatMap fun i =>
    (qualNames names i.organizationId).flatMap fun n =>
      (addrRows addrs i.organizationId).flatMap fun a =>
        (lfRows lfes lfs i.organizationId).map fun lf =>
          mkCompany orgs i n a lf

/-- One folding step when scanning a `DISTINCT ON` group in `ORDER BY` order:
keep the earlier row unless the new row's name is strictly smaller. -/
def pickStep (acc : Option Company) (c : Company) : Option Company :=
  match acc with
  | none => some c
  | some b => if c.name.data < b.name.data then some c else some b

/-- The row kept by `DISTINCT ON (i.ico) … ORDER BY i.ico, n.name`: the first
row of the group whose name is lexicographically smallest. -/
def pickMinByName (g : List Company) : Option Company :=
  g.foldl pickStep none

/-- `SELECT DISTINCT ON (i.ico) … ORDER BY i.ico, n.name`: one row per
distinct `ico`, the minimal-name row of its group. -/
def distinctOnIco (cs : List Company) : List Company :=
  ((cs.map Company.ico).dedup).filterMap
    (fun u => pickMinByName (cs.filter (fun c => c.ico == u)))

/-- The full resolution step of `ImportService.parseAndImport` (lines
316–344): the `INSERT INTO companies_staging … SELECT DISTINCT ON (i.ico) …`
query, as a function from the typed staging relations to the staged
`companies_staging` rows. -/
def resolveCompanies (ids : List IdentifierEntry) (names : List NameEntry)
    (orgs : List Organization) (addrs : List AddressEntry)
    (lfes : List LegalFormEntry) (lfs : List LegalForm) : List Company :=
  distinctOnIco (candidates ids names orgs addrs lfes lfs)

theorem pickMin_go (l : List Company) :
    ∀ b : Company, ∃ c, l.foldl pickStep (some b) = some c ∧
      (c = b ∨ c ∈ l) ∧ c.name.data ≤ b.name.data ∧
      ∀ d ∈ l, c.name.data ≤ d.name.data := by
  induction l with
  | nil =>
    intro b
    exact ⟨b, rfl, Or.inl rfl, le_refl _, by simp⟩
  | cons x xs ih =>
    intro b
    by_cases h : x.name.data < b.name.data
    · obtain ⟨c, hc, hmem, hle, hall⟩ := ih x
      refine ⟨c, ?_, ?_, ?_, ?_⟩
      · rw [List.foldl_cons]
        show xs.foldl pickStep (pickStep (some b) x) = some c
        simpa [pickStep, h] using hc
      · cases hmem with
        | inl he => exact Or.inr (he ▸ List.mem_cons_self x xs)
        | inr hm => exact Or.inr (List.mem_cons_of_mem x hm)
      · exact le_trans hle (le_of_lt h)
      · intro d hd
        rcases List.mem_cons.mp hd with rfl | hd
        · exact hle
        · exact hall d hd
    · obtain ⟨c, hc, hmem, hle, hall⟩ := ih b
      refine ⟨c, ?_, ?_, hle, ?_⟩
      · rw [List.foldl_cons]
        show xs.foldl pickStep (pickStep (some b) x) = some c
        simpa [pickStep, h] using hc
      · cases hmem with
        | inl he => exact Or.inl he
        | inr hm => exact Or.inr (List.mem_cons_of_mem x hm)
      · intro d hd
        rcases List.mem_cons.mp hd with rfl | hd
        · exact le_trans hle (not_lt.mp h)
        · exact hall d hd

theorem pickMin_spec (g : List Company) (hg : g ≠ []) :
    ∃ c, pickMinByName g = some c ∧ c ∈ g ∧
      ∀ d ∈ g, c.name.data ≤ d.name.data := by
  cases g with
  | nil => exact absurd rfl hg
  | cons x xs =>
    obtain ⟨c, hc, hmem, hle, hall⟩ := pickMin_go xs x
    refine ⟨c, ?_, ?_, ?_⟩
    · unfold pickMinByName
      rw [List.foldl_cons]
      show xs.foldl pickStep (pickStep none x) = some c
      simpa [pickStep] using hc
    · cases hmem with
      | inl he => exact he ▸ List.mem_cons_self x xs
      | inr hm => exact List.mem_cons_of_mem x hm
    · intro d hd
      rcases List.mem_cons.mp hd with rfl | hd
      · exact hle
      · exact hall d hd

theorem pickMin_eq_some_mem {g : List Company} {c : Company}
    (h : pickMinByName g = some c) : c ∈ g := by
  cases g with
  | nil => simp [pickMinByName] at h
  | cons x xs =>
    obtain ⟨c', hc', hmem', _⟩ := pickMin_spec (x :: xs) (by simp)
    rw [h] at hc'
    injection hc' with e
    exact e ▸ hmem'

theorem mem_group_ico {cs : List Company} {u : String} {c : Company}
    (h : c ∈ cs.filter (fun x => x.ico == u)) : c ∈ cs ∧ c.ico = u := by
  rw [List.mem_filter] at h
  exact ⟨h.1, by simpa using h.2⟩

theorem filterMap_pick_pairwise (cs : List Company) :
    ∀ l : List String, l.Pairwise (fun a b => a ≠ b) →
      (l.filterMap
        (fun u => pickMinByName (cs.filter (fun c => c.ico == u)))).Pairwise
        (fun a b => a.ico ≠ b.ico) := by
  intro l
  induction l with
  | nil => intro _; simp
  | cons u l ih =>
    intro hd
    rw [List.pairwise_cons] at hd
    rw [List.filterMap_cons]
    cases hF : pickMinByName (cs.filter (fun c => c.ico == u)) with
    | none => exact ih hd.2
    | some c =>
      rw [List.pairwise_cons]
      refine ⟨?_, ih hd.2⟩
      intro b hb
      rw [List.mem_filterMap] at hb
      obtain ⟨v, hv, hpv⟩ := hb
      have hbv : b.ico = v := (mem_group_ico (pickMin_eq_some_mem hpv)).2
      have hcu : c.ico = u := (mem_group_ico (pickMin_eq_some_mem hF)).2
      rw [hcu, hbv]
      exact hd.1 v hv

theorem distinctOnIco_pairwise (cs : List Company) :
    (distinctOnIco cs).Pairwise (fun a b => a.ico ≠ b.ico) :=
  filterMap_pick_pairwise cs _ (List.nodup_dedup _)

theorem distinctOnIco_sub {cs : List Company} {c : Company}
    (h : c ∈ distinctOnIco cs) :
    c ∈ cs ∧ ∀ d ∈ cs, d.ico = c.ico → c.name.data ≤ d.name.data := by
  unfold distinctOnIco at h
  rw [List.mem_filterMap] at h
  obtain ⟨u, _, hpick⟩ := h
  have hgmem := pickMin_eq_some_mem hpick
  have hc := mem_group_ico hgmem
  obtain ⟨c', hc', _, hall'⟩ := pickMin_spec _ (List.ne_nil_of_mem hgmem)
  rw [hpick] at hc'
  injection hc' with e
  subst e
  refine ⟨hc.1, ?_⟩
  intro d hd hico
  have hdg : d ∈ cs.filter (fun x => x.ico == u) :=
    List.mem_filter.mpr ⟨hd, by simp [hico, hc.2]⟩
  exact hall' d hdg

theorem distinctOnIco_group {cs : List Company} {u : String}
    (hne : cs.filter (fun c => c.ico == u) ≠ []) :
    ∃ c ∈ distinctOnIco cs,
      pickMinByName (cs.filter (fun c => c.ico == u)) = some c := by
  obtain ⟨c, hc, _, _⟩ := pickMin_spec _ hne
  have hu : u ∈ (cs.map Company.ico).dedup := by
    rw [List.mem_dedup]
    obtain ⟨x, hx⟩ := List.exists_mem_of_ne_nil _ hne
    have hx' := mem_group_ico hx
    exact List.mem_map.mpr ⟨x, hx'.1, hx'.2⟩
  exact ⟨c, List.mem_filterMap.mpr ⟨u, hu, hc⟩, hc⟩

theorem addrRows_ne_nil (addrs : List AddressEntry) (oid : Int) :
    addrRows addrs oid ≠ [] := by
  unfold addrRows
  split
  · simp
  · next h =>
    intro hmap
    rw [List.map_eq_nil_iff] at hmap
    rw [hmap] at h
    simp at h

theorem lfRows_ne_nil (lfes : List LegalFormEntry) (lfs : List LegalForm)
    (oid : Int) : lfRows lfes lfs oid ≠ [] := by
  unfold lfRows
  split
  · simp
  · next h =>
    intro hmap
    rw [List.map_eq_nil_iff] at hmap
    rw [hmap] at h
    simp at h

theorem mem_openIds_iff {ids : List IdentifierEntry} {i : IdentifierEntry} :
    i ∈ openIds ids ↔
      i ∈ ids ∧ i.effectiveTo = none ∧ i.ico.isSome = true := by
  simp [openIds, List.mem_filter, Option.isNone_iff_eq_none, and_assoc]

theorem mem_qualNames_iff {names : List NameEntry} {oid : Int} {n : NameEntry} :
    n ∈ qualNames names oid ↔
      n ∈ names ∧ n.organizationId = oid ∧ n.effectiveTo = none ∧
        n.name.isSome = true := by
  simp [qualNames, List.mem_filter, Option.isNone_iff_eq_none, and_assoc]

theorem mem_candidates_intro {ids : List IdentifierEntry}
    {names : List NameEntry} {orgs : List Organization}
    {addrs : List AddressEntry} {lfes : List LegalFormEntry}
    {lfs : List LegalForm} {i : IdentifierEntry} {n : NameEntry}
    {a : Option AddressEntry} {lf : Option String}
    (hi : i ∈ openIds ids) (hn : n ∈ qualNames names i.organizationId)
    (ha : a ∈ addrRows addrs i.organizationId)
    (hlf : lf ∈ lfRows lfes lfs i.organizationId) :
    mkCompany orgs i n a lf ∈ candidates ids names orgs addrs lfes lfs := by
  unfold candidates
  exact List.mem_flatMap.mpr ⟨i, hi, List.mem_flatMap.mpr ⟨n, hn,
    List.mem_flatMap.mpr ⟨a, ha, List.mem_map.mpr ⟨lf, hlf, rfl⟩⟩⟩⟩

theorem mem_candidates_elim {ids : List IdentifierEntry}
    {names : List NameEntry} {orgs : List Organization}
    {addrs : List AddressEntry} {lfes : List LegalFormEntry}
    {lfs : List LegalForm} {c : Company}
    (h : c ∈ candidates ids names orgs addrs lfes lfs) :
    ∃ i ∈ openIds ids, ∃ n ∈ qualNames names i.organizationId,
      ∃ a ∈ addrRows addrs i.organizationId,
        ∃ lf ∈ lfRows lfes lfs i.organizationId,
          c = mkCompany orgs i n a lf := by
  unfold candidates at h
  rw [List.mem_flatMap] at h
  obtain ⟨i, hi, h⟩ := h
  rw [List.mem_flatMap] at h
  obtain ⟨n, hn, h⟩ := h
  rw [List.mem_flatMap] at h
  obtain ⟨a, ha, h⟩ := h
  rw [List.mem_map] at h
  obtain ⟨lf, hlf, h⟩ := h
  exact ⟨i, hi, n, hn, a, ha, lf, hlf, h.symm⟩

theorem group_name_qual {ids : List IdentifierEntry} {names : List NameEntry}
    {orgs : List Organization} {addrs : List AddressEntry}
    {lfes : List LegalFormEntry} {lfs : List LegalForm} {u : String} {oid : Int}
    (huniq : ∀ i ∈ ids, i.effectiveTo = none → i.ico = some u →
      i.organizationId = oid)
    {c : Company}
    (hc : c ∈ (candidates ids names orgs addrs lfes lfs).filter
      (fun x => x.ico == u)) :
    ∃ n ∈ qualNames names oid, c.name = n.name.getD "" := by
  obtain ⟨hcand, hicoeq⟩ := mem_group_ico hc
  obtain ⟨i, hi, n, hn, a, ha, lf, hlf, rfl⟩ := mem_candidates_elim hcand
  obtain ⟨hids, hopen, hsome⟩ := mem_openIds_iff.mp hi
  obtain ⟨v, hv⟩ := Option.isSome_iff_exists.mp hsome
  have hico : (mkCompany orgs i n a lf).ico = v := by simp [mkCompany, hv]
  have hvu : v = u := by rw [← hico, hicoeq]
  have hoid : i.organizationId = oid :=
    huniq i hids hopen (by rw [hv, hvu])
  exact ⟨n, hoid ▸ hn, by simp [mkCompany]⟩

theorem group_name_exists {ids : List IdentifierEntry} {names : List NameEntry}
    {orgs : List Organization} {addrs : List AddressEntry}
    {lfes : List LegalFormEntry} {lfs : List LegalForm} {u : String} {oid : Int}
    (huniq : ∀ i ∈ ids, i.effectiveTo = none → i.ico = some u →
      i.organizationId = oid)
    (hex : ∃ i ∈ ids, i.effectiveTo = none ∧ i.ico = some u)
    {n : NameEntry} (hn : n ∈ qualNames names oid) :
    ∃ c ∈ (candidates ids names orgs addrs lfes lfs).filter
      (fun x => x.ico == u), c.name = n.name.getD "" := by
  obtain ⟨i, hi, hopen, hico⟩ := hex
  have hoid : i.organizationId = oid := huniq i hi hopen hico
  have hiop : i ∈ openIds ids :=
    mem_openIds_iff.mpr ⟨hi, hopen, by simp [hico]⟩
  obtain ⟨a, ha⟩ :=
    List.exists_mem_of_ne_nil _ (addrRows_ne_nil addrs i.organizationId)
  obtain ⟨lf, hlf⟩ :=
    List.exists_mem_of_ne_nil _ (lfRows_ne_nil lfes lfs i.organizationId)
  have hn' : n ∈ qualNames names i.organizationId := by rw [hoid]; exact hn
  refine ⟨mkCompany orgs i n a lf, List.mem_filter.mpr
    ⟨mem_candidates_intro hiop hn' ha hlf, by simp [mkCompany, hico]⟩,
    by simp [mkCompany]⟩

/-- C4: after resolution no two published rows share an `ico` — `DISTINCT ON
(i.ico)` keeps exactly one row per identifier — and the kept row is a join
candidate whose name is minimal among all candidates with the same `ico`
(the deterministic choice induced by `ORDER BY i.ico, n.name`). -/
theorem c4_published_ico_unique (ids : List IdentifierEntry)
    (names : List NameEntry) (orgs : List Organization)
    (addrs : List AddressEntry) (lfes : List LegalFormEntry)
    (lfs : List LegalForm) :
    ((resolveCompanies ids names orgs addrs lfes lfs).Pairwise
      (fun a b => a.ico ≠ b.ico)) ∧
    ∀ c ∈ resolveCompanies ids names orgs addrs lfes lfs,
      c ∈ candidates ids names orgs addrs lfes lfs ∧
      ∀ d ∈ candidates ids names orgs addrs lfes lfs,
        d.ico = c.ico → c.name.data ≤ d.name.data := by
  refine ⟨distinctOnIco_pairwise _, ?_⟩
  intro c hc
  exact distinctOnIco_sub hc

/-- C5: for an organization `oid` that owns every open identifier entry
carrying `ico = u` (and has at least one such entry), the published company
with identifier `u` carries the lexicographically smallest currently-valid
name of that organization, whatever the storage order of the name rows. -/
theorem c5_min_name_published (ids : List IdentifierEntry)
    (names : List NameEntry) (orgs : List Organization)
    (addrs : List AddressEntry) (lfes : List LegalFormEntry)
    (lfs : List LegalForm) (u : String) (oid : Int)
    (huniq : ∀ i ∈ ids, i.effectiveTo = none → i.ico = some u →
      i.organizationId = oid)
    (hex : ∃ i ∈ ids, i.effectiveTo = none ∧ i.ico = some u)
    (hqn : qualNames names oid ≠ []) :
    ∃ c ∈ resolveCompanies ids names orgs addrs lfes lfs, c.ico = u ∧
      (∃ n ∈ qualNames names oid, c.name = n.name.getD "") ∧
      ∀ n ∈ qualNames names oid, c.name.data ≤ (n.name.getD "").data := by
  obtain ⟨n0, hn0⟩ := List.exists_mem_of_ne_nil _ hqn
  obtain ⟨c0, hc0g, _⟩ := group_name_exists huniq hex hn0
  have hgne : (candidates ids names orgs addrs lfes lfs).filter
      (fun x => x.ico == u) ≠ [] := List.ne_nil_of_mem hc0g
  obtain ⟨c, hcout, hpick⟩ := distinctOnIco_group hgne
  obtain ⟨c', hpick', hcg', hall'⟩ := pickMin_spec _ hgne
  rw [hpick] at hpick'
  injection hpick' with e
  subst e
  refine ⟨c, hcout, (mem_group_ico hcg').2, group_name_qual huniq hcg', ?_⟩
  intro n hn
  obtain ⟨c2, hc2g, hc2name⟩ := group_name_exists huniq hex hn
  have := hall' c2 hc2g
  rw [hc2name] at this
  exact this

/-- C7: the search normalization is idempotent, identifies the diacritic
variants of the spec's example, and the published `name_normalized` column is
a pure function (namely `sqlNormalize`) of the published `name` column. -/
theorem c7_normalization_idempotent_pure :
    (∀ s : String, removeDiacritics (removeDiacritics s) = removeDiacritics s) ∧
    removeDiacritics "Žilina" = removeDiacritics "Zilina" ∧
    ∀ (ids : List IdentifierEntry) (names : List NameEntry)
      (orgs : List Organization) (addrs : List AddressEntry)
      (lfes : List LegalFormEntry) (lfs : List LegalForm),
      ∀ c ∈ resolveCompanies ids names orgs addrs lfes lfs,
        c.nameNormalized = sqlNormalize c.name := by
  refine ⟨removeDiacritics_idem, by decide, ?_⟩
  intro ids names orgs addrs lfes lfs c hc
  have hcand := (distinctOnIco_sub hc).1
  obtain ⟨i, _, n, _, a, _, lf, _, rfl⟩ := mem_candidates_elim hcand
  rfl

/-! ## Search engine (`SearchService.ts` and the company route) -/

namespace SearchService

/-- `escapeIlike` (`SearchService.ts` lines 40–42): escape `%`, `_` and `\`
so the LIKE/ILIKE patterns built from the query match it literally. -/
def escapeIlike (s : String) : String :=
  String.mk (s.data.flatMap
    (fun c => if c = '%' || c = '_' || c = '\\' then ['\\', c] else [c]))

/-- The query normalization of `SearchService.search` (line 53):
`removeDiacritics(searchQuery.trim())`. -/
def queryNormalize (q : String) : String := removeDiacritics (jsTrim q)

/-- Substring test: the meaning of `name_normalized ILIKE '%' || q || '%'`
once `q` has been `escapeIlike`-escaped (both sides already lower case). -/
def containsSub (p s : String) : Bool :=
  s.data.tails.any (fun t => p.data.isPrefixOf t)

/-- The CASE ranking of the name-search `ORDER BY`: 0 for an exact
normalized match, 1 for a normalized-prefix match, 2 otherwise. -/
def tier (nq : String) (c : Company) : Nat :=
  if c.nameNormalized = nq then 0
  else if nq.data.isPrefixOf c.nameNormalized.data then 1 else 2

/-- The full name-search ordering `ORDER BY CASE …, similarity(…) DESC,
name`: by tier, then by descending similarity, then by name. -/
def searchRel (sim : String → String → Nat) (nq : String)
    (a b : Company) : Prop :=
  tier nq a < tier nq b ∨
    (tier nq a = tier nq b ∧
      (sim b.nameNormalized nq < sim a.nameNormalized nq ∨
        (sim a.nameNormalized nq = sim b.nameNormalized nq ∧
          a.name.data ≤ b.name.data)))

instance (sim : String → String → Nat) (nq : String) :
    DecidableRel (searchRel sim nq) := fun a b => by
  unfold searchRel
  infer_instance

instance (sim : String → String → Nat) (nq : String) :
    IsTotal Company (searchRel sim nq) := by
  refine ⟨fun a b => ?_⟩
  unfold searchRel
  rcases lt_trichotomy (tier nq a) (tier nq b) with h | h | h
  · exact Or.inl (Or.inl h)
  · rcases lt_trichotomy (sim a.nameNormalized nq) (sim b.nameNormalized nq)
      with h2 | h2 | h2
    · exact Or.inr (Or.inr ⟨h.symm, Or.inl h2⟩)
    · rcases le_total a.name.data b.name.data with h3 | h3
      · exact Or.inl (Or.inr ⟨h, Or.inr ⟨h2, h3⟩⟩)
      · exact Or.inr (Or.inr ⟨h.symm, Or.inr ⟨h2.symm, h3⟩⟩)
    · exact Or.inl (Or.inr ⟨h, Or.inl h2⟩)
  · exact Or.inr (Or.inl h)

instance (sim : String → String → Nat) (nq : String) :
    IsTrans Company (searchRel sim nq) := by
  refine ⟨fun a b c hab hbc => ?_⟩
  unfold searchRel at hab hbc ⊢
  rcases hab with h1 | ⟨e1, h1⟩ <;> rcases hbc with h2 | ⟨e2, h2⟩
  · exact Or.inl (lt_trans h1 h2)
  · exact Or.inl (by omega)
  · exact Or.inl (by omega)
  · refine Or.inr ⟨e1.trans e2, ?_⟩
    rcases h1 with s1 | ⟨f1, n1⟩ <;> rcases h2 with s2 | ⟨f2, n2⟩
    · exact Or.inl (by omega)
    · exact Or.inl (by omega)
    · exact Or.inl (by omega)
    · exact Or.inr ⟨f1.trans f2, le_trans n1 n2⟩

/-- The WHERE clause of the name branch (`name_normalized LIKE q% OR
name_normalized % q OR name_normalized ILIKE %q%`) together with the
`is_active` filter. -/
def matchesName (sim : String → String → Nat) (thr : Nat) (nq : String)
    (inc : Bool) (c : Company) : Bool :=
  (nq.data.isPrefixOf c.nameNormalized.data ||
    decide (thr ≤ sim c.nameNormalized nq) ||
    containsSub nq c.nameNormalized) && (inc || c.isActive)

/-- The name branch of `SearchService.search` (lines 80–107): filter by the
three-way WHERE clause, order by tier/similarity/name, `LIMIT` the result.
`sim` is the `pg_trgm` `similarity` function and `thr` the `%`-operator
threshold. -/
def nameSearch (sim : String → String → Nat) (thr : Nat)
    (comps : List Company) (q : String) (lim : Nat) (inc : Bool) :
    List Company :=
  (List.insertionSort (searchRel sim (queryNormalize q))
    (comps.filter (matchesName sim thr (queryNormalize q) inc))).take lim

/-- `CASE WHEN ico = q THEN 0 ELSE 1 END` of the identifier branch. -/
def icoExactRank (t : String) (c : Company) : Nat := if c.ico = t then 0 else 1

/-- The identifier-branch ordering `ORDER BY CASE …, ico`. -/
def icoRel (t : String) (a b : Company) : Prop :=
  icoExactRank t a < icoExactRank t b ∨
    (icoExactRank t a = icoExactRank t b ∧ a.ico.data ≤ b.ico.data)

instance (t : String) : DecidableRel (icoRel t) := fun a b => by
  unfold icoRel
  infer_instance

instance (t : String) : IsTotal Company (icoRel t) := by
  refine ⟨fun a b => ?_⟩
  unfold icoRel
  rcases lt_trichotomy (icoExactRank t a) (icoExactRank t b) with h | h | h
  · exact Or.inl (Or.inl h)
  · rcases le_total a.ico.data b.ico.data with h2 | h2
    · exact Or.inl (Or.inr ⟨h, h2⟩)
    · exact Or.inr (Or.inr ⟨h.symm, h2⟩)
  · exact Or.inr (Or.inl h)

instance (t : String) : IsTrans Company (icoRel t) := by
  refine ⟨fun a b c hab hbc => ?_⟩
  unfold icoRel at hab hbc ⊢
  rcases hab with h1 | ⟨e1, h1⟩ <;> rcases hbc with h2 | ⟨e2, h2⟩
  · exact Or.inl (lt_trans h1 h2)
  · exact Or.inl (by omega)
  · exact Or.inl (by omega)
  · exact Or.inr ⟨e1.trans e2, le_trans h1 h2⟩

/-- The identifier branch of `SearchService.search` (lines 62–79): prefix
match `ico LIKE q%` on the raw trimmed query (no zero-padding), exact matches
first, then by `ico`, then `LIMIT`. -/
def icoSearch (comps : List Company) (q : String) (lim : Nat) (inc : Bool) :
    List Company :=
  (List.insertionSort (icoRel (jsTrim q))
    (comps.filter (fun c =>
      (jsTrim q).data.isPrefixOf c.ico.data && (inc || c.isActive)))).take lim

/-- The branch test `/^\d+$/.test(searchQuery.trim())` of line 57. -/
def isIcoSearch (s : String) : Bool :=
  !s.data.isEmpty && s.data.all Char.isDigit

/-- `SearchService.search`: identifier search when the trimmed query is all
digits, otherwise tiered name search. -/
def search (sim : String → String → Nat) (thr : Nat) (comps : List Company)
    (q : String) (lim : Nat) (inc : Bool) : List Company :=
  if isIcoSearch (jsTrim q) then icoSearch comps q lim inc
  else nameSearch sim thr comps q lim inc

/-- `SearchService.getByIco`: exact-key lookup `WHERE ico = $1`, first row or
null. -/
def getByIco (comps : List Company) (v : String) : Option Company :=
  (comps.filter (fun c => c.ico == v)).head?

end SearchService

/-- Outcome of `GET /api/company/:ico`. -/
inductive RouteResult where
  | invalidIco
  | notFound
  | found (c : Company)
deriving DecidableEq

/-- `ico.padStart(8, '0')` of the company route. -/
def padStart8 (s : String) : String :=
  String.mk (List.replicate (8 - s.data.length) '0' ++ s.data)

/-- The company route `GET /api/company/:ico`: validate `/^\d{1,8}$/`, pad
the identifier to 8 digits, then exact lookup via `SearchService.getByIco`. -/
def companyRoute (comps : List Company) (v : String) : RouteResult :=
  if decide (1 ≤ v.data.length) && decide (v.data.length ≤ 8) &&
      v.data.all Char.isDigit then
    match SearchService.getByIco comps (padStart8 v) with
    | some c => .found c
    | none => .notFound
  else .invalidIco

/-- C6: the query-side normalization (`removeDiacritics` over the trimmed
query) and the import-side normalization (`LOWER(TRANSLATE(…))` that fills
`name_normalized`) are not the same function.  The TRANSLATE target string is
one character short (a missing second `l`), so every source character from
`ĺ` on maps to the following slot — `ĺ→n`, `ň→o`, `ö→r`, …, `ý→z`, `ž→A` —
and the final `Ž` is deleted outright: `"Žilina"` is stored as `"ilina"` but
searched as `"zilina"`. -/
theorem c6_normalization_mismatch :
    SearchService.queryNormalize "Žilina" = "zilina" ∧
    sqlNormalize "Žilina" = "ilina" ∧
    sqlNormalize "Žilina" ≠ SearchService.queryNormalize "Žilina" ∧
    SearchService.queryNormalize "ž" = "z" ∧ sqlNormalize "ž" = "a" ∧
    SearchService.queryNormalize "ĺ" = "l" ∧ sqlNormalize "ĺ" = "n" := by
  decide

/-- Example company with exact normalized name "firma". -/
def firmaCo : Company :=
  ⟨"11111111", "Firma", "firma", none, none, none, none, "Slovensko", true⟩

/-- Example company whose normalized name has "firma" as a proper prefix. -/
def firmaPlusCo : Company :=
  ⟨"22222222", "Firma Plus", "firma plus", none, none, none, none,
    "Slovensko", true⟩

/-- Example company that matches "firma" only through trigram similarity. -/
def firmiaCo : Company :=
  ⟨"33333333", "Firmia", "firmia", none, none, none, none, "Slovensko", true⟩

/-- Concrete similarity scores (scaled to 1000) mirroring `pg_trgm` on the
spec's ranking example: `firmia` scores lower than `firma plus`. -/
def simFirma : String → String → Nat := fun a _ =>
  if a = "firma" then 1000
  else if a = "firma plus" then 550
  else if a = "firmia" then 500 else 0

/-- C8: every name-search result list is sorted by the three-tier ordering
(exact normalized match, then normalized-prefix match, then fuzzy, the fuzzy
tier by descending similarity then name), and on the spec's example the exact
match "Firma" ranks before the prefix match "Firma Plus", which ranks before
the lower-similarity fuzzy match "Firmia". -/
theorem c8_tiered_ranking :
    (∀ (sim : String → String → Nat) (thr : Nat) (comps : List Company)
      (q : String) (lim : Nat) (inc : Bool),
      List.Sorted (SearchService.searchRel sim (SearchService.queryNormalize q))
        (SearchService.nameSearch sim thr comps q lim inc)) ∧
    SearchService.search simFirma 300 [firmiaCo, firmaPlusCo, firmaCo]
      "Firma" 20 false = [firmaCo, firmaPlusCo, firmiaCo] := by
  constructor
  · intro sim thr comps q lim inc
    have hs := List.sorted_insertionSort
      (SearchService.searchRel sim (SearchService.queryNormalize q))
      (comps.filter
        (SearchService.matchesName sim thr (SearchService.queryNormalize q) inc))
    exact hs.sublist (List.take_sublist lim _)
  · decide

/-- Company whose 8-digit identifier is the zero-padding of "123". -/
def pad123Co : Company :=
  ⟨"00000123", "Alpha", "alpha", none, none, none, none, "Slovensko", true⟩

/-- Company whose identifier starts with the raw digits "123". -/
def pref123Co : Company :=
  ⟨"12345678", "Beta", "beta", none, none, none, none, "Slovensko", true⟩

/-- C10: an all-digits search matches identifiers by prefix of the raw
trimmed query, with no zero-padding — so `search "123"` misses the company
with identifier "00000123" and returns the one starting with "123" — whereas
the company route pads its argument to 8 digits and finds "00000123". -/
theorem c10_ico_prefix_no_padding :
    (∀ (sim : String → String → Nat) (thr : Nat) (comps : List Company)
      (q : String) (lim : Nat) (inc : Bool) (c : Company),
      SearchService.isIcoSearch (jsTrim q) = true →
      c ∈ SearchService.search sim thr comps q lim inc →
      (jsTrim q).data.isPrefixOf c.ico.data = true) ∧
    SearchService.search simFirma 300 [pad123Co, pref123Co] "123" 20 false
      = [pref123Co] ∧
    companyRoute [pad123Co, pref123Co] "123" = .found pad123Co := by
  refine ⟨?_, by decide, by decide⟩
  intro sim thr comps q lim inc c hq hc
  simp only [SearchService.search, hq, if_true] at hc
  unfold SearchService.icoSearch at hc
  have hc2 := List.mem_of_mem_take hc
  have hc3 := (List.perm_insertionSort _ _).mem_iff.mp hc2
  rw [List.mem_filter] at hc3
  exact (Bool.and_eq_true_iff.mp hc3.2).1

/-- Witness for the universally quantified part of the C10 theorem at the
concrete input. -/
theorem c10_witness :
    (jsTrim "123").data.isPrefixOf pref123Co.ico.data = true :=
  c10_ico_prefix_no_padding.1 simFirma 300 [pad123Co, pref123Co] "123" 20
    false pref123Co (by decide) (by decide)

/-- C4 witness data: two organizations resolving to the same identifier. -/
def idsW : List IdentifierEntry :=
  [⟨1, some "00000123", none⟩, ⟨2, some "00000123", none⟩]

/-- C4 witness data: their currently valid names. -/
def namesW : List NameEntry :=
  [⟨1, some "Beta", none⟩, ⟨2, some "Alfa", none⟩, ⟨1, some "Alfa", none⟩]

/-- The single company the C4 witness staging resolves to. -/
def cW : Company :=
  ⟨"00000123", "Alfa", "alfa", none, none, none, none, "Slovensko", true⟩

/-- Witness for C4 at a concrete conflicting staging. -/
theorem c4_witness :
    cW ∈ candidates idsW namesW [] [] [] [] ∧
    ∀ d ∈ candidates idsW namesW [] [] [] [],
      d.ico = cW.ico → cW.name.data ≤ d.name.data :=
  (c4_published_ico_unique idsW namesW [] [] [] []).2 cW (by decide)

/-- C5 witness data: one organization, one open identifier. -/
def idsW2 : List IdentifierEntry := [⟨1, some "00000123", none⟩]

/-- C5 witness data: two currently valid names stored larger-first. -/
def namesW2 : List NameEntry :=
  [⟨1, some "Beta", none⟩, ⟨1, some "Alfa", none⟩]

/-- Witness for C5 at a concrete two-name organization. -/
theorem c5_witness :
    ∃ c ∈ resolveCompanies idsW2 namesW2 [] [] [] [], c.ico = "00000123" ∧
      (∃ n ∈ qualNames namesW2 1, c.name = n.name.getD "") ∧
      ∀ n ∈ qualNames namesW2 1, c.name.data ≤ (n.name.getD "").data :=
  c5_min_name_published idsW2 namesW2 [] [] [] [] "00000123" 1 (by decide)
    (by decide) (by decide)

/-- Witness for the resolver part of C7 at a concrete staging. -/
theorem c7_witness : cW.nameNormalized = sqlNormalize cW.name :=
  c7_normalization_idempotent_pure.2.2 idsW namesW [] [] [] [] cW (by decide)

/-! ## Dump stream parsing and the import run (`ImportService.parseAndImport`
lines 164–283, `ImportService.runFullImport` lines 426–463)

The line loop is embedded faithfully at the level of the SQL value strings it
builds.  The database executor (`pool.query` for the batched INSERTs) is a
parameter `exec : String → Except String Unit`; `insertBatch` swallows its
errors exactly as the code's `try/catch` does.  A thrown JS `TypeError`
(calling `.replace` on `undefined`, i.e. `esc(fields[i])` with a missing
field) is the `Except.error` of the line processor and aborts the whole
run. -/

/-- JS `line.split('\t')` (never returns an empty list). -/
def splitFields : List Char → List String
  | [] => [""]
  | c :: rest =>
    match splitFields rest with
    | [] => []
    | s :: t =>
      if c = '\t' then "" :: s :: t else String.mk (c :: s.data) :: t

/-- Template-literal interpolation of a possibly-undefined field:
`undefined` prints as the string "undefined". -/
def tpl : Option String → String
  | none => "undefined"
  | some s => s

/-- The SQL escaping inside `esc`: double quotes, then double backslashes. -/
def sqlEscape (s : String) : String :=
  String.mk ((s.data.flatMap
      (fun c => if c = '\'' then ['\'', '\''] else [c])).flatMap
    (fun c => if c = '\\' then ['\\', '\\'] else [c]))

/-- The parser's `esc` arrow function (lines 238–241) applied to
`fields[i]`: on a missing field (`undefined`) the call `v.replace(…)` throws
a TypeError; `'\\N'` maps to SQL NULL; anything else is escaped and
quoted. -/
def escJs : Option String → Except String String
  | none => .error "TypeError"
  | some s =>
    .ok (if s = "\\N" then "NULL" else "'" ++ sqlEscape s ++ "'")

/-- The guarded call sites `fields[i] === '\\N' ? 'NULL' : esc(fields[i])`. -/
def guardEsc (v : Option String) : Except String String :=
  if v = some "\\N" then .ok "NULL" else escJs v

/-- The `switch (currentTable)` of lines 243–266, building one SQL values
tuple from the tab-separated fields (or `none` for an unrecognized table). -/
def rowValues (ct : String) (fields : List String) :
    Option (Except String String) :=
  match ct with
  | "organizations" =>
    some (match guardEsc (fields.get? 2) with
      | .error e => .error e
      | .ok b => .ok ("(" ++ tpl (fields.get? 0) ++ ", " ++ b ++ ")"))
  | "organization_identifier_entries" =>
    some (match escJs (fields.get? 2), guardEsc (fields.get? 4) with
      | .error e, _ => .error e
      | _, .error e => .error e
      | .ok b, .ok c =>
        .ok ("(" ++ tpl (fields.get? 1) ++ ", " ++ b ++ ", " ++ c ++ ")"))
  | "organization_name_entries" =>
    some (match escJs (fields.get? 2), guardEsc (fields.get? 4) with
      | .error e, _ => .error e
      | _, .error e => .error e
      | .ok b, .ok c =>
        .ok ("(" ++ tpl (fields.get? 1) ++ ", " ++ b ++ ", " ++ c ++ ")"))
  | "organization_address_entries" =>
    some (match escJs (fields.get? 3), escJs (fields.get? 7),
        escJs (fields.get? 6), guardEsc (fields.get? 10) with
      | .error e, _, _, _ => .error e
      | _, .error e, _, _ => .error e
      | _, _, .error e, _ => .error e
      | _, _, _, .error e => .error e
      | .ok s3, .ok s7, .ok s6, .ok s10 =>
        .ok ("(" ++ tpl (fields.get? 1) ++ ", " ++ s3 ++ ", " ++ s7 ++ ", " ++
          s6 ++ ", " ++ s10 ++ ")"))
  | "organization_legal_form_entries" =>
    some (match guardEsc (fields.get? 4) with
      | .error e => .error e
      | .ok g =>
        .ok ("(" ++ tpl (fields.get? 1) ++ ", " ++ tpl (fields.get? 2) ++
          ", " ++ g ++ ")"))
  | "legal_forms" =>
    some (match escJs (fields.get? 1) with
      | .error e => .error e
      | .ok b => .ok ("(" ++ tpl (fields.get? 0) ++ ", " ++ b ++ ")"))
  | _ => none

/-- The staging-table mapping of lines 200–221: source relation name to
target table and column list (`none` for unrecognized relations). -/
def tableMapping : Option String → Option (String × String)
  | some "organizations" => some ("import_organizations", "id, terminated_on")
  | some "organization_identifier_entries" =>
    some ("import_identifiers", "organization_id, ico, effective_to")
  | some "organization_name_entries" =>
    some ("import_names", "organization_id, name, effective_to")
  | some "organization_address_entries" =>
    some ("import_addresses",
      "organization_id, street, city, postal_code, effective_to")
  | some "organization_legal_form_entries" =>
    some ("import_legal_form_entries",
      "organization_id, legal_form_id, effective_to")
  | some "legal_forms" => some ("import_legal_forms", "id, name")
  | _ => none

/-- The regex capture `line.match(/COPY rpo\.(\w+)/)` on a line that starts
with `COPY rpo.`: the run of word characters after the prefix. -/
def copyTableName (line : String) : Option String :=
  if ((line.data.drop 9).takeWhile
      (fun c => c.isAlphanum || c = '_')).isEmpty
  then none
  else some (String.mk ((line.data.drop 9).takeWhile
    (fun c => c.isAlphanum || c = '_')))

/-- The mutable state of the parsing loop (lines 171–175) plus the two
observable effect streams: successfully inserted batches and the
`console.error` log entries (target table, error) of `insertBatch`. -/
structure ParseState where
  currentTable : Option String := none
  targetTable : Option String := none
  insertColumns : String := ""
  batchValues : List String := []
  lineCount : Nat := 0
  errorLogs : List (String × String) := []
  inserted : List (String × String) := []
deriving DecidableEq

/-- The INSERT statement text built by `insertBatch` (line 180). -/
def mkInsertSql (t cols : String) (vals : List String) : String :=
  "INSERT INTO " ++ t ++ " (" ++ cols ++ ") VALUES " ++
    String.intercalate "," vals

/-- `insertBatch` (lines 177–187): no-op on an empty batch or unset target;
otherwise run the INSERT, and on failure only log
`[Import] Error inserting into <table>:` with the error — the exception is
caught, the batch discarded, and processing continues. -/
def insertBatch (exec : String → Except String Unit) (st : ParseState) :
    ParseState :=
  match st.targetTable with
  | none => st
  | some t =>
    if st.batchValues.isEmpty then st
    else
      match exec (mkInsertSql t st.insertColumns st.batchValues) with
      | .ok _ =>
        { st with
            inserted := st.inserted ++
              [(t, mkInsertSql t st.insertColumns st.batchValues)]
            batchValues := [] }
      | .error e =>
        { st with errorLogs := st.errorLogs ++ [(t, e)], batchValues := [] }

/-- One iteration of the `for await (const line of rl)` loop
(lines 192–280). -/
def processLine (exec : String → Except String Unit) (st : ParseState)
    (line : String) : Except String ParseState :=
  if "COPY rpo.".data.isPrefixOf line.data then
    match tableMapping (copyTableName line) with
    | some (t, cols) =>
      .ok { insertBatch exec st with
              currentTable := copyTableName line
              targetTable := some t
              insertColumns := cols }
    | none =>
      .ok { insertBatch exec st with
              currentTable := copyTableName line
              targetTable := none }
  else if line = "\\." || "--".data.isPrefixOf line.data then
    .ok { insertBatch exec st with currentTable := none, targetTable := none }
  else
    match st.currentTable, st.targetTable with
    | some ct, some _ =>
      if line.data.isEmpty then .ok st
      else
        match rowValues ct (splitFields line.data) with
        | some (.error e) => .error e
        | some (.ok v) =>
          if (st.batchValues ++ [v]).length ≥ 5000 then
            .ok (insertBatch exec
              { st with
                  batchValues := st.batchValues ++ [v]
                  lineCount := st.lineCount + 1 })
          else
            .ok { st with
                    batchValues := st.batchValues ++ [v]
                    lineCount := st.lineCount + 1 }
        | none => .ok { st with lineCount := st.lineCount + 1 }
    | _, _ => .ok st

/-- The whole streaming loop of `parseAndImport` followed by the final
`await insertBatch()` of line 282. -/
def parseLines (exec : String → Except String Unit) (lines : List String) :
    Except String ParseState :=
  (lines.foldlM (processLine exec) {}).map (insertBatch exec)

/-- The `ImportResult` record of `ImportService.ts` lines 13–18 (minus the
wall-clock duration). -/
structure ImportResult where
  success : Bool
  recordCount : Nat
  error : Option String
deriving DecidableEq

/-- `ImportService.swapTables` at the dataset level: the staging rows replace
the published rows and the old generation is dropped. -/
def swapTables (staging : List Company) : List Company := staging

namespace ImportService

/-- `ImportService.runFullImport` (lines 426–463): download, decompress,
parse-and-import, then swap — each `Except.error` is the promise rejection
the surrounding `try/catch` turns into `success: false` with the previous
published table untouched.  `download` and `decompress` stand for the results
of `downloadDump`/`decompressDump`; `lines` is the decompressed dump;
`resolve` is the typed resolution step (`resolveCompanies` applied to the
staged relations) producing the `companies_staging` rows, whose row count is
the `recordCount` that `parseAndImport` returns.  Note there is no emptiness
or failure check between parsing and the unconditional `swapTables`. -/
def runFullImport (db : List Company)
    (download decompress : Except String Unit)
    (exec : String → Except String Unit) (lines : List String)
    (resolve : ParseState → List Company) : ImportResult × List Company :=
  match download with
  | .error e => (⟨false, 0, some e⟩, db)
  | .ok _ =>
    match decompress with
    | .error e => (⟨false, 0, some e⟩, db)
    | .ok _ =>
      match parseLines exec lines with
      | .error e => (⟨false, 0, some e⟩, db)
      | .ok st => (⟨true, (resolve st).length, none⟩, swapTables (resolve st))

end ImportService

deriving instance DecidableEq for Except

/-- The components of `ParseState` that determine the control flow of the
parsing loop (everything except the effect streams `errorLogs` and
`inserted`). -/
def coreOf (st : ParseState) :
    Option String × Option String × String × List String × Nat :=
  (st.currentTable, st.targetTable, st.insertColumns, st.batchValues,
    st.lineCount)

theorem insertBatch_currentTable (exec : String → Except String Unit)
    (st : ParseState) :
    (insertBatch exec st).currentTable = st.currentTable := by
  unfold insertBatch
  cases h : st.targetTable with
  | none => rfl
  | some t =>
    by_cases hb : st.batchValues.isEmpty
    · simp [hb]
    · cases he : exec (mkInsertSql t st.insertColumns st.batchValues) <;>
        simp [hb, he]

theorem insertBatch_targetTable (exec : String → Except String Unit)
    (st : ParseState) : (insertBatch exec st).targetTable = st.targetTable := by
  unfold insertBatch
  cases h : st.targetTable with
  | none => simpa using h
  | some t =>
    by_cases hb : st.batchValues.isEmpty
    · simpa [hb] using h
    · cases he : exec (mkInsertSql t st.insertColumns st.batchValues) <;>
        simp [hb, he, h]

theorem insertBatch_insertColumns (exec : String → Except String Unit)
    (st : ParseState) :
    (insertBatch exec st).insertColumns = st.insertColumns := by
  unfold insertBatch
  cases h : st.targetTable with
  | none => rfl
  | some t =>
    by_cases hb : st.batchValues.isEmpty
    · simp [hb]
    · cases he : exec (mkInsertSql t st.insertColumns st.batchValues) <;>
        simp [hb, he]

theorem insertBatch_lineCount (exec : String → Except String Unit)
    (st : ParseState) : (insertBatch exec st).lineCount = st.lineCount := by
  unfold insertBatch
  cases h : st.targetTable with
  | none => rfl
  | some t =>
    by_cases hb : st.batchValues.isEmpty
    · simp [hb]
    · cases he : exec (mkInsertSql t st.insertColumns st.batchValues) <;>
        simp [hb, he]

theorem insertBatch_batchValues (exec : String → Except String Unit)
    (st : ParseState) :
    (insertBatch exec st).batchValues =
      if st.targetTable.isSome && !st.batchValues.isEmpty then []
      else st.batchValues := by
  unfold insertBatch
  cases h : st.targetTable with
  | none => simp [h]
  | some t =>
    by_cases hb : st.batchValues.isEmpty
    · simp [h, hb]
    · cases he : exec (mkInsertSql t st.insertColumns st.batchValues) <;>
        simp [hb, he, h]

theorem escJs_error {v : Option String} {e : String}
    (h : escJs v = .error e) : v = none ∧ e = "TypeError" := by
  cases v with
  | none =>
    unfold escJs at h
    injection h with h
    exact ⟨rfl, h.symm⟩
  | some s => simp [escJs] at h

theorem guardEsc_error {v : Option String} {e : String}
    (h : guardEsc v = .error e) : v = none ∧ e = "TypeError" := by
  unfold guardEsc at h
  split at h
  · simp at h
  · exact escJs_error h

theorem rowValues_error {ct : String} {fields : List String} {e : String}
    (h : rowValues ct fields = some (.error e)) : e = "TypeError" := by
  unfold rowValues at h
  split at h
  all_goals try (cases h)
  all_goals injection h with h
  all_goals repeat' split at h
  all_goals
    first
      | exact Except.noConfusion h
      | (injection h with h
         subst h
         first
           | exact (escJs_error (by assumption)).2
           | exact (guardEsc_error (by assumption)).2)

theorem processLine_error {exec : String → Except String Unit}
    {st : ParseState} {line : String} {e : String}
    (h : processLine exec st line = .error e) : e = "TypeError" := by
  unfold processLine at h
  repeat' split at h
  all_goals
    first
      | exact Except.noConfusion h
      | (injection h with h
         subst h
         exact rowValues_error (by assumption))

theorem foldlM_processLine_error {exec : String → Except String Unit} :
    ∀ (lines : List String) (st : ParseState) (e : String),
      lines.foldlM (processLine exec) st = .error e → e = "TypeError" := by
  intro lines
  induction lines with
  | nil =>
    intro st e h
    exact Except.noConfusion h
  | cons l ls ih =>
    intro st e h
    rw [List.foldlM_cons] at h
    cases hp : processLine exec st l with
    | error e1 =>
      rw [hp] at h
      injection h with h
      subst h
      exact processLine_error hp
    | ok st1 =>
      rw [hp] at h
      exact ih st1 e h

theorem parseLines_error {exec : String → Except String Unit}
    {lines : List String} {e : String}
    (h : parseLines exec lines = .error e) : e = "TypeError" := by
  unfold parseLines at h
  cases hf : lines.foldlM (processLine exec) ({} : ParseState) with
  | error e1 =>
    rw [hf] at h
    injection h with h
    subst h
    exact foldlM_processLine_error lines {} e1 hf
  | ok st =>
    rw [hf] at h
    exact Except.noConfusion h

/-- The executor standing for a database that accepts every INSERT. -/
def okExec : String → Except String Unit := fun _ => .ok ()

/-- The executor standing for a database whose INSERTs all fail. -/
def badExec : String → Except String Unit := fun _ => .error "insert failed"

/-- A dump that stages one currently-valid name row and no identifier rows. -/
def nameLines : List String :=
  ["COPY rpo.organization_name_entries (id, organization_id, name, x, effective_to) FROM stdin;",
   "7\t1\tAlfa\tx\t\\N",
   "\\."]

/-- C2 counterexample: with a non-empty staging load (one name row) whose
identifier relation is entirely empty, the resolution is empty — and the run
still succeeds: `runFullImport` reports `success = true` with
`recordCount = 0` and `swapTables` replaces the previously published table
(here `[firmaCo]`) with the empty one. -/
theorem c2_empty_resolution_publishes :
    resolveCompanies [] [⟨1, some "Alfa", none⟩] [] [] [] [] = [] ∧
    ImportService.runFullImport [firmaCo] (.ok ()) (.ok ()) okExec nameLines
      (fun _ => resolveCompanies [] [⟨1, some "Alfa", none⟩] [] [] [] [])
      = (⟨true, 0, none⟩, []) := by
  decide

/-- C2 amended: `runFullImport` performs no emptiness check — whenever the
parse stage succeeds, `swapTables` runs unconditionally and the resolved set
(empty or not) replaces the published table, with `success = true` and
`recordCount` its size. -/
theorem c2_amended_swap_unconditional (db : List Company)
    (exec : String → Except String Unit) (lines : List String)
    (resolve : ParseState → List Company) (st : ParseState)
    (h : parseLines exec lines = .ok st) :
    ImportService.runFullImport db (.ok ()) (.ok ()) exec lines resolve
      = (⟨true, (resolve st).length, none⟩, swapTables (resolve st)) := by
  unfold ImportService.runFullImport
  rw [h]

/-- The parse state that `nameLines` produces. -/
def stNameLines : ParseState :=
  { currentTable := none
    targetTable := none
    insertColumns := "organization_id, name, effective_to"
    batchValues := []
    lineCount := 1
    errorLogs := []
    inserted := [("import_names",
      "INSERT INTO import_names (organization_id, name, effective_to) VALUES (1, 'Alfa', NULL)")] }

/-- Witness for the amended C2 theorem at a concrete dump. -/
theorem c2_amended_witness :
    ImportService.runFullImport [firmaCo] (.ok ()) (.ok ()) okExec nameLines
      (fun _ => []) = (⟨true, 0, none⟩, []) :=
  c2_amended_swap_unconditional [firmaCo] okExec nameLines (fun _ => [])
    stNameLines (by decide)

/-- A dump whose single organizations row will be batched and inserted. -/
def orgLines : List String :=
  ["COPY rpo.organizations (id, name, terminated_on) FROM stdin;",
   "1\tX\t\\N",
   "\\."]

/-- C3 counterexample: when every batch INSERT fails, the failure is only
logged — as (relation, error), with no offset — the batch is dropped, and the
run still reports `success = true` and publishes. -/
theorem c3_batch_failure_not_fatal :
    (match parseLines badExec orgLines with
      | .ok st => st.errorLogs
      | .error _ => []) = [("import_organizations", "insert failed")] ∧
    ImportService.runFullImport [] (.ok ()) (.ok ()) badExec orgLines
      (fun _ => [firmaCo]) = (⟨true, 1, none⟩, [firmaCo]) := by
  decide

/-- C3 amended: a staging batch-insert failure never aborts the run.
`insertBatch` catches it, logs only the target relation and the error (no
offset is recorded anywhere), clears the batch and continues; the parse stage
can only abort with the TypeError of a missing field, never with a database
error. -/
theorem c3_amended_insert_failure_swallowed :
    (∀ (exec : String → Except String Unit) (st : ParseState) (t e : String),
      st.targetTable = some t → st.batchValues.isEmpty = false →
      exec (mkInsertSql t st.insertColumns st.batchValues) = .error e →
      insertBatch exec st =
        { st with errorLogs := st.errorLogs ++ [(t, e)], batchValues := [] }) ∧
    (∀ (exec : String → Except String Unit) (lines : List String) (e : String),
      parseLines exec lines = .error e → e = "TypeError") := by
  constructor
  · intro exec st t e ht hb he
    unfold insertBatch
    rw [ht]
    simp [hb, he]
  · intro exec lines e h
    exact parseLines_error h

/-- A loop state holding one pending organizations batch. -/
def stBatch : ParseState :=
  { currentTable := some "organizations"
    targetTable := some "import_organizations"
    insertColumns := "id, terminated_on"
    batchValues := ["(1, NULL)"]
    lineCount := 1
    errorLogs := []
    inserted := [] }

/-- A dump with an undersized line inside the organizations section. -/
def c9Lines : List String :=
  ["COPY rpo.organizations (id, name, terminated_on) FROM stdin;", "1"]

/-- Witness for the amended C3 theorem at a concrete failing INSERT and a
concrete aborting parse. -/
theorem c3_amended_witness :
    (insertBatch badExec stBatch =
      { stBatch with
          errorLogs := stBatch.errorLogs ++
            [("import_organizations", "insert failed")]
          batchValues := [] }) ∧
    "TypeError" = "TypeError" :=
  ⟨c3_amended_insert_failure_swallowed.1 badExec stBatch
      "import_organizations" "insert failed" rfl (by decide) rfl,
   c3_amended_insert_failure_swallowed.2 okExec c9Lines "TypeError"
      (by decide)⟩

/-- C9 counterexample: a single undersized line ("1") inside the recognized
organizations section makes `esc(fields[2])` throw (`fields[2]` is
`undefined`), aborting the entire run: nothing is published and the line is
not counted anywhere. -/
theorem c9_malformed_line_aborts :
    parseLines okExec c9Lines = .error "TypeError" ∧
    ImportService.runFullImport [firmaCo] (.ok ()) (.ok ()) okExec c9Lines
      (fun _ => [cW]) = (⟨false, 0, some "TypeError"⟩, [firmaCo]) := by
  decide

/-- C9 amended: an undersized line in a recognized section is not skipped —
it raises a TypeError that aborts the whole import run (`success = false`,
previously published table untouched); no malformed-line count exists. -/
theorem c9_amended_undersized_aborts :
    (∀ (exec : String → Except String Unit) (st : ParseState) (line : String),
      st.currentTable = some "organizations" →
      st.targetTable.isSome = true →
      "COPY rpo.".data.isPrefixOf line.data = false →
      (decide (line = "\\.") || "--".data.isPrefixOf line.data) = false →
      line.data.isEmpty = false →
      (splitFields line.data).get? 2 = none →
      processLine exec st line = .error "TypeError") ∧
    (∀ (db : List Company) (exec : String → Except String Unit)
      (lines : List String) (resolve : ParseState → List Company) (e : String),
      parseLines exec lines = .error e →
      ImportService.runFullImport db (.ok ()) (.ok ()) exec lines resolve
        = (⟨false, 0, some e⟩, db)) := by
  constructor
  · intro exec st line h1 h2 h3 h4 h5 h6
    obtain ⟨t, ht⟩ := Option.isSome_iff_exists.mp h2
    have hge : guardEsc ((splitFields line.data).get? 2)
        = .error "TypeError" := by
      rw [h6]; rfl
    have hrow : rowValues "organizations" (splitFields line.data)
        = some (.error "TypeError") := by
      show some (match guardEsc ((splitFields line.data).get? 2) with
        | Except.error e => Except.error e
        | Except.ok b =>
          Except.ok ("(" ++ tpl ((splitFields line.data).get? 0) ++ ", " ++
            b ++ ")")) = some (Except.error "TypeError")
      rw [hge]
    unfold processLine
    rw [h1, ht]
    simp only [h3, Bool.false_eq_true, if_false, h4, h5]
    rw [hrow]
  · intro db exec lines resolve e h
    unfold ImportService.runFullImport
    rw [h]

/-- A loop state inside the organizations section with an empty batch. -/
def stOrg : ParseState :=
  { currentTable := some "organizations"
    targetTable := some "import_organizations"
    insertColumns := "id, terminated_on" }

/-- Witness for the amended C9 theorem at a concrete undersized line. -/
theorem c9_amended_witness :
    processLine okExec stOrg "1" = .error "TypeError" ∧
    ImportService.runFullImport [firmaCo] (.ok ()) (.ok ()) okExec c9Lines
      (fun _ => []) = (⟨false, 0, some "TypeError"⟩, [firmaCo]) :=
  ⟨c9_amended_undersized_aborts.1 okExec stOrg "1" rfl rfl (by decide)
      (by decide) (by decide) (by decide),
   c9_amended_undersized_aborts.2 [firmaCo] okExec c9Lines (fun _ => [])
      "TypeError" (by decide)⟩
